import Mathlib

/-!
Verification of the scVelo dynamical-model utilities
(`scvelo/tools/dynamical_model_utils.py`).

The numeric code operates on floating-point numpy arrays; the shallow
embedding below idealises the numbers as real numbers (`ℝ`) and the
per-gene cell populations as `List ℝ`, one entry per cell.  Elementwise
numpy operations become `List.map` / `List.zipWith` or index functions,
`np.argmin(..., axis=0)` becomes a first-minimum `argmin` over the
per-cell candidate list, and the in-place mutation of caller arrays is
made explicit by returning the final array values.
-/

namespace Scvelo

noncomputable section

/-- Clamping bound of the guarded logarithm, `eps=1e-6` from the source
default argument of `log`. -/
def logEps : ℝ := 1e-6

/-- Guarded logarithm, source lines 18–19:
`np.log(np.clip(x, eps, 1 - eps))`.  `np.clip(x, lo, hi)` is
`min (max x lo) hi`. -/
def log (x : ℝ) : ℝ := Real.log (min (max x logEps) (1 - logEps))

/-- Guarded reciprocal, source lines 22–26: `1 / x * (x != 0)`,
the boolean mask acting as a 0/1 factor. -/
def inv (x : ℝ) : ℝ := 1 / x * (if x ≠ 0 then 1 else 0)

/-- Closed-form unspliced abundance, source lines 90–92. -/
def unspliced (tau u0 alpha beta : ℝ) : ℝ :=
  u0 * Real.exp (-beta * tau) + alpha / beta * (1 - Real.exp (-beta * tau))

/-- Closed-form spliced abundance, source lines 95–98; the coupling
coefficient uses the guarded reciprocal `inv (gamma - beta)`. -/
def spliced (tau s0 u0 alpha beta gamma : ℝ) : ℝ :=
  s0 * Real.exp (-gamma * tau) + alpha / gamma * (1 - Real.exp (-gamma * tau)) +
    (alpha - u0 * beta) * inv (gamma - beta) *
      (Real.exp (-gamma * tau) - Real.exp (-beta * tau))

/-- Joint (u, s) solution, source lines 101–105.  The numpy body
repeats the formulas of `unspliced` and `spliced` verbatim. -/
def mRNA (tau u0 s0 alpha beta gamma : ℝ) : ℝ × ℝ :=
  (unspliced tau u0 alpha beta, spliced tau s0 u0 alpha beta gamma)

/-- C1: the guarded reciprocal `inv` returns `0` at `x = 0` and `1/x`
otherwise, so (in the real-valued model) no division-by-zero value ever
reaches a caller. -/
theorem inv_zero_guard (x : ℝ) : inv x = if x = 0 then 0 else 1 / x := by
  unfold inv
  by_cases hx : x = 0
  · simp [hx]
  · simp [hx]

/-- C9: the guarded logarithm clamps its argument into
`[1e-6, 1 - 1e-6]` and then takes `Real.log`; it is total and its value
always lies in `[Real.log 1e-6, Real.log (1 - 1e-6)]`. -/
theorem log_clamped_range (x : ℝ) :
    log x = Real.log (min (max x logEps) (1 - logEps)) ∧
    Real.log logEps ≤ log x ∧ log x ≤ Real.log (1 - logEps) := by
  have heps : (0 : ℝ) < logEps := by norm_num [logEps]
  have heps' : logEps ≤ 1 - logEps := by norm_num [logEps]
  have hlo : logEps ≤ min (max x logEps) (1 - logEps) :=
    le_min (le_trans (le_max_right x logEps) (le_refl _)) heps'
  have hpos : (0 : ℝ) < min (max x logEps) (1 - logEps) := lt_of_lt_of_le heps hlo
  refine ⟨rfl, ?_, ?_⟩
  · exact Real.log_le_log heps hlo
  · exact Real.log_le_log hpos (min_le_right _ _)

/-- C4: at elapsed time `tau = 0` the kinetic model returns exactly the
initial conditions, for all positive rates including the degenerate
case `gamma = beta`. -/
theorem model_initial_conditions (u0 s0 alpha beta gamma : ℝ)
    (ha : 0 < alpha) (hb : 0 < beta) (hg : 0 < gamma) :
    unspliced 0 u0 alpha beta = u0 ∧ spliced 0 s0 u0 alpha beta gamma = s0 := by
  constructor
  · simp [unspliced]
  · simp [spliced]

/-- Witness for `model_initial_conditions` at `alpha = beta = gamma = 1`,
`u0 = 2`, `s0 = 3`. -/
theorem model_initial_conditions_witness :
    unspliced 0 2 1 1 = 2 ∧ spliced 0 3 2 1 1 1 = 3 :=
  model_initial_conditions 2 3 1 1 1 (by norm_num) (by norm_num) (by norm_num)

/-- A numpy boolean mask entry as the 0/1 factor it becomes in mask
arithmetic such as `tau_u * inv_u + tau * inv_us`. -/
def b2r (b : Bool) : ℝ := if b then 1 else 0

/-- Unspliced-only inverse-time formula, source lines 138–140:
`uinf = alpha / beta; tau_u = -1 / beta * log((u - uinf) / (u0 - uinf))`. -/
def tauU_formula (u u0 alpha beta : ℝ) : ℝ :=
  -1 / beta * log ((u - alpha / beta) / (u0 - alpha / beta))

/-- Joint (u, s) inverse-time formula, source lines 133–136, with the
guarded reciprocal in `beta_ = beta * inv(gamma - beta)`. -/
def tauUS_formula (u s u0 s0 alpha beta gamma : ℝ) : ℝ :=
  -1 / gamma *
    log ((s - beta * inv (gamma - beta) * u -
            (alpha / gamma - beta * inv (gamma - beta) * (alpha / beta))) /
         (s0 - beta * inv (gamma - beta) * u0 -
            (alpha / gamma - beta * inv (gamma - beta) * (alpha / beta))))

/-- Per-cell mask `inv_u = (gamma >= beta) if gamma is not None else True`,
source line 128.  `gamma >= beta` elementwise is `beta[j] <= gamma[j]`. -/
def invuMask (beta : List ℝ) (gamma : Option (List ℝ)) (j : ℕ) : Bool :=
  match gamma with
  | none => true
  | some g => if beta.getD j 0 ≤ g.getD j 0 then true else false

/-- `tau_inv`, source lines 125–142, on per-cell lists.  The staged
numpy computation is kept: the joint-formula array is computed when any
cell has `gamma < beta` (`any_invus`), the unspliced-only array when any
cell has `gamma >= beta` or `s` is absent (`any_invu`), and the two are
combined through the 0/1 masks `inv_u`, `inv_us`. -/
def tau_inv (u : List ℝ) (s : Option (List ℝ)) (u0 s0 alpha beta : List ℝ)
    (gamma : Option (List ℝ)) : List ℝ :=
  let n := u.length
  let any_invu := ((List.range n).map (invuMask beta gamma)).any id || s.isNone
  let any_invus := ((List.range n).map (fun j => !(invuMask beta gamma j))).any id && s.isSome
  let tauJ := fun j => tauUS_formula (u.getD j 0) ((s.getD []).getD j 0) (u0.getD j 0)
      (s0.getD j 0) (alpha.getD j 0) (beta.getD j 0) ((gamma.getD []).getD j 0)
  let tauU := fun j => tauU_formula (u.getD j 0) (u0.getD j 0) (alpha.getD j 0) (beta.getD j 0)
  if any_invu then
    if any_invus then
      (List.range n).map
        (fun j => tauU j * b2r (invuMask beta gamma j) + tauJ j * b2r (!(invuMask beta gamma j)))
    else (List.range n).map tauU
  else
    if any_invus then (List.range n).map tauJ else []

theorem getD_map_range {α : Type} (f : ℕ → α) {n j : ℕ} (hj : j < n) (d : α) :
    ((List.range n).map f).getD j d = f j := by
  rw [List.getD_eq_getElem?_getD, List.getElem?_map, List.getElem?_range hj]
  rfl

theorem any_map_range_of {f : ℕ → Bool} {n j : ℕ} (hj : j < n) (hf : f j = true) :
    ((List.range n).map f).any id = true := by
  rw [List.any_eq_true]
  exact ⟨f j, List.mem_map_of_mem f (List.mem_range.mpr hj), hf⟩

theorem invuMask_none (beta : List ℝ) (j : ℕ) : invuMask beta none j = true := rfl

theorem invuMask_none_fun (beta : List ℝ) : invuMask beta none = fun _ => true := rfl

theorem invuMask_some (beta g : List ℝ) (j : ℕ) :
    invuMask beta (some g) j = true ↔ beta.getD j 0 ≤ g.getD j 0 := by
  unfold invuMask
  by_cases h : beta.getD j 0 ≤ g.getD j 0 <;> simp [h]

theorem any_map_const_false (n : ℕ) :
    ((List.range n).map (fun _ => (false : Bool))).any id = false := by
  simp

theorem any_map_const_true {n : ℕ} (h : 0 < n) :
    ((List.range n).map (fun _ => (true : Bool))).any id = true := by
  cases n with
  | zero => exact absurd h (lt_irrefl 0)
  | succ m => simp [List.range_succ]

theorem bool_false_of_not_true {b : Bool} (h : ¬ b = true) : b = false := by
  cases b
  · rfl
  · exact absurd rfl h

/-- With `gamma = None`, `tau_inv` is the unspliced-only array
(source line 128 makes `inv_u` the scalar `True`). -/
theorem tau_inv_gamma_none (u : List ℝ) (s : Option (List ℝ)) (u0 s0 alpha beta : List ℝ)
    (h : 0 < u.length ∨ s = none) :
    tau_inv u s u0 s0 alpha beta none =
      (List.range u.length).map
        (fun j => tauU_formula (u.getD j 0) (u0.getD j 0) (alpha.getD j 0) (beta.getD j 0)) := by
  have hcond : (((List.range u.length).map (invuMask beta none)).any id || s.isNone) = true := by
    rcases h with h | h
    · rw [invuMask_none_fun, any_map_const_true h, Bool.true_or]
    · rw [h]
      simp
  have hcond2 :
      (((List.range u.length).map (fun j => !(invuMask beta none j))).any id && s.isSome) = false := by
    have : (fun j => !(invuMask beta none j)) = fun _ : ℕ => false := rfl
    rw [this, any_map_const_false, Bool.false_and]
  simp only [tau_inv, hcond, hcond2, if_true, Bool.false_eq_true, if_false]

/-- With `gamma` and `s` supplied, each cell of `tau_inv` is the
unspliced-only value when `gamma >= beta` at that cell and the joint
value otherwise, whichever of the three source branches is taken. -/
theorem tau_inv_some_eval (u sl u0 s0 alpha beta g : List ℝ) (j : ℕ)
    (hj : j < u.length) :
    (tau_inv u (some sl) u0 s0 alpha beta (some g)).getD j 0 =
      (if beta.getD j 0 ≤ g.getD j 0 then
        tauU_formula (u.getD j 0) (u0.getD j 0) (alpha.getD j 0) (beta.getD j 0)
      else
        tauUS_formula (u.getD j 0) (sl.getD j 0) (u0.getD j 0) (s0.getD j 0)
          (alpha.getD j 0) (beta.getD j 0) (g.getD j 0)) := by
  by_cases hA : ((List.range u.length).map (invuMask beta (some g))).any id = true
  · by_cases hB :
        ((List.range u.length).map (fun j => !(invuMask beta (some g) j))).any id = true
    · have hcond : (((List.range u.length).map (invuMask beta (some g))).any id
          || (some sl).isNone) = true := by rw [hA, Bool.true_or]
      have hcond2 : (((List.range u.length).map (fun j => !(invuMask beta (some g) j))).any id
          && (some sl).isSome) = true := by rw [hB]; rfl
      simp only [tau_inv, hcond, hcond2, if_true]
      rw [getD_map_range _ hj]
      by_cases hc : beta.getD j 0 ≤ g.getD j 0
      · have hm : invuMask beta (some g) j = true := (invuMask_some beta g j).mpr hc
        rw [if_pos hc, hm]
        simp [b2r]
      · have hm : invuMask beta (some g) j = false :=
          bool_false_of_not_true (fun h => hc ((invuMask_some beta g j).mp h))
        rw [if_neg hc, hm]
        simp [b2r]
    · -- no cell has gamma < beta: the plain unspliced-only array is returned
      have hall : invuMask beta (some g) j = true := by
        by_contra hne
        have hf : invuMask beta (some g) j = false := bool_false_of_not_true hne
        exact hB (any_map_range_of hj (by rw [hf]; rfl))
      have hc : beta.getD j 0 ≤ g.getD j 0 := (invuMask_some beta g j).mp hall
      have hcond : (((List.range u.length).map (invuMask beta (some g))).any id
          || (some sl).isNone) = true := by rw [hA, Bool.true_or]
      have hcond2 : (((List.range u.length).map (fun j => !(invuMask beta (some g) j))).any id
          && (some sl).isSome) = false := by
        rw [bool_false_of_not_true hB, Bool.false_and]
      simp only [tau_inv, hcond, hcond2, if_true, Bool.false_eq_true, if_false]
      rw [getD_map_range _ hj, if_pos hc]
  · -- no cell has gamma >= beta: the plain joint array is returned
    have hm : invuMask beta (some g) j = false :=
      bool_false_of_not_true (fun ht => hA (any_map_range_of hj ht))
    have hc : ¬ beta.getD j 0 ≤ g.getD j 0 := fun hc => by
      rw [(invuMask_some beta g j).mpr hc] at hm
      exact absurd hm (by simp)
    have hB : ((List.range u.length).map (fun j => !(invuMask beta (some g) j))).any id = true :=
      any_map_range_of hj (by rw [hm]; rfl)
    have hcond : (((List.range u.length).map (invuMask beta (some g))).any id
        || (some sl).isNone) = false := by
      rw [bool_false_of_not_true hA, Bool.false_or]
      rfl
    have hcond2 : (((List.range u.length).map (fun j => !(invuMask beta (some g) j))).any id
        && (some sl).isSome) = true := by rw [hB]; rfl
    simp only [tau_inv, hcond, hcond2, Bool.false_eq_true, if_false, if_true]
    rw [getD_map_range _ hj, if_neg hc]
    rfl

/-- C5 (counterexample): a one-cell population with `gamma = 2 >= beta = 1`
and both `u` and `s` supplied is resolved to the unspliced-only value
`log 2`, not to the joint-formula value `log 2 / 2` that the claim
requires for `gamma >= beta`. -/
theorem tau_inv_regime_counterexample :
    (tau_inv [1/2] (some [7/10]) [1] [7/5] [0] [1] (some [2])).getD 0 0 = Real.log 2 ∧
    tauUS_formula (1/2) (7/10) 1 (7/5) 0 1 2 = Real.log 2 / 2 ∧
    Real.log 2 ≠ Real.log 2 / 2 := by
  have hlog2 : (0:ℝ) < Real.log 2 := Real.log_pos (by norm_num)
  have hhalf : Real.log (1/2 : ℝ) = -Real.log 2 := by rw [one_div, Real.log_inv]
  have hclamp : Scvelo.log (1/2 : ℝ) = Real.log (1/2 : ℝ) := by
    unfold log
    rw [max_eq_left (by norm_num [logEps]), min_eq_left (by norm_num [logEps])]
  refine ⟨?_, ?_, ?_⟩
  · rw [tau_inv_some_eval _ _ _ _ _ _ _ 0 (by norm_num)]
    rw [if_pos (by norm_num)]
    unfold tauU_formula
    norm_num
    rw [hclamp, hhalf]
    ring
  · unfold tauUS_formula
    have hinv1 : inv (2 - 1 : ℝ) = 1 := by unfold inv; norm_num
    rw [hinv1]
    norm_num
    rw [hclamp, hhalf]
    ring
  · intro h
    rw [eq_div_iff (by norm_num : (2:ℝ) ≠ 0)] at h
    nlinarith

/-- C5 (amended): `tau_inv` resolves each cell with `gamma >= beta` by
the unspliced-only formula and each cell with `gamma < beta` by the
joint (u, s) formula, element-wise within one population; when `gamma`
is unspecified (`None`) every cell is resolved by the unspliced-only
formula. -/
theorem tau_inv_regime_selection (u sl u0 s0 alpha beta g : List ℝ) (j : ℕ)
    (hj : j < u.length) :
    (tau_inv u none u0 s0 alpha beta none).getD j 0 =
      tauU_formula (u.getD j 0) (u0.getD j 0) (alpha.getD j 0) (beta.getD j 0) ∧
    (tau_inv u (some sl) u0 s0 alpha beta none).getD j 0 =
      tauU_formula (u.getD j 0) (u0.getD j 0) (alpha.getD j 0) (beta.getD j 0) ∧
    (tau_inv u (some sl) u0 s0 alpha beta (some g)).getD j 0 =
      (if beta.getD j 0 ≤ g.getD j 0 then
        tauU_formula (u.getD j 0) (u0.getD j 0) (alpha.getD j 0) (beta.getD j 0)
      else
        tauUS_formula (u.getD j 0) (sl.getD j 0) (u0.getD j 0) (s0.getD j 0)
          (alpha.getD j 0) (beta.getD j 0) (g.getD j 0)) := by
  have hn : 0 < u.length := Nat.lt_of_le_of_lt (Nat.zero_le j) hj
  refine ⟨?_, ?_, tau_inv_some_eval u sl u0 s0 alpha beta g j hj⟩
  · rw [tau_inv_gamma_none u none u0 s0 alpha beta (Or.inr rfl), getD_map_range _ hj]
  · rw [tau_inv_gamma_none u (some sl) u0 s0 alpha beta (Or.inl hn), getD_map_range _ hj]

/-- Witness for `tau_inv_regime_selection` at the concrete one-cell
population `u = [1]`, `s = [3/4]`, `u0 = [2]`, `s0 = [3]`, `alpha = [0]`,
`beta = [1]`, `gamma = [2]`, cell `j = 0`. -/
theorem tau_inv_regime_selection_witness :
    (tau_inv [1] none [2] [3] [0] [1] none).getD 0 0 =
      tauU_formula (([1]:List ℝ).getD 0 0) (([2]:List ℝ).getD 0 0)
        (([0]:List ℝ).getD 0 0) (([1]:List ℝ).getD 0 0) ∧
    (tau_inv [1] (some [3/4]) [2] [3] [0] [1] none).getD 0 0 =
      tauU_formula (([1]:List ℝ).getD 0 0) (([2]:List ℝ).getD 0 0)
        (([0]:List ℝ).getD 0 0) (([1]:List ℝ).getD 0 0) ∧
    (tau_inv [1] (some [3/4]) [2] [3] [0] [1] (some [2])).getD 0 0 =
      (if ([1]:List ℝ).getD 0 0 ≤ ([2]:List ℝ).getD 0 0 then
        tauU_formula (([1]:List ℝ).getD 0 0) (([2]:List ℝ).getD 0 0)
          (([0]:List ℝ).getD 0 0) (([1]:List ℝ).getD 0 0)
      else
        tauUS_formula (([1]:List ℝ).getD 0 0) (([3/4]:List ℝ).getD 0 0)
          (([2]:List ℝ).getD 0 0) (([3]:List ℝ).getD 0 0) (([0]:List ℝ).getD 0 0)
          (([1]:List ℝ).getD 0 0) (([2]:List ℝ).getD 0 0)) :=
  tau_inv_regime_selection [1] [3/4] [2] [3] [0] [1] [2] 0 (by norm_num)

/-- `np.min` of a one-column array (0 on the empty list, unused). -/
def listMin : List ℝ → ℝ
  | [] => 0
  | [x] => x
  | x :: y :: ys => min x (listMin (y :: ys))

/-- `np.max` of a one-column array (0 on the empty list, unused). -/
def listMax : List ℝ → ℝ
  | [] => 0
  | [x] => x
  | x :: y :: ys => max x (listMax (y :: ys))

/-- `np.mean` of a one-column array. -/
def mean (l : List ℝ) : ℝ := l.sum / l.length

/-- `np.diff(l, prepend=p)`: consecutive differences with `p` prepended. -/
def diffsFrom (p : ℝ) : List ℝ → List ℝ
  | [] => []
  | x :: xs => (x - p) :: diffsFrom x xs

/-- The unclipped gap array of `compute_dt`, source lines 46–47:
`np.diff(np.sort(t), prepend=np.min(t))` on one column. -/
def dtRaw (t : List ℝ) : List ℝ :=
  diffsFrom (listMin t) (List.insertionSort (· ≤ ·) t)

/-- The inner maximum of source line 48:
`np.max([np.mean(dt), np.max(t) / len(t)])` on one column. -/
def mBound (t : List ℝ) : ℝ := max (mean (dtRaw t)) (listMax t / t.length)

/-- `compute_dt`, source lines 45–53, on one column; line 49 clips the
bound at 0 and lines 50–52 clip the gaps into `[0, ub]` with
`ub = m_dt + 3 * sqrt(m_dt)`. -/
def compute_dt (t : List ℝ) (clipped : Bool) : List ℝ :=
  let m_dt := max (mBound t) 0
  if clipped then
    (dtRaw t).map (fun x => min (max x 0) (m_dt + 3 * Real.sqrt m_dt))
  else dtRaw t

theorem listMin_le_mem {l : List ℝ} (x : ℝ) (hx : x ∈ l) : listMin l ≤ x := by
  induction l with
  | nil => cases hx
  | cons a as ih =>
    cases as with
    | nil =>
      rcases List.mem_cons.mp hx with h | h
      · subst h; simp [listMin]
      · cases h
    | cons b bs =>
      simp only [listMin]
      rcases List.mem_cons.mp hx with h | h
      · subst h; exact min_le_left _ _
      · exact le_trans (min_le_right _ _) (ih h)

theorem diffsFrom_nonneg : ∀ (p : ℝ) (l : List ℝ), l.Sorted (· ≤ ·) →
    (∀ x ∈ l, p ≤ x) → ∀ y ∈ diffsFrom p l, 0 ≤ y := by
  intro p l
  induction l generalizing p with
  | nil => intro _ _ y hy; cases hy
  | cons a as ih =>
    intro hs hp y hy
    rw [List.sorted_cons] at hs
    simp only [diffsFrom] at hy
    rcases List.mem_cons.mp hy with h | h
    · subst h
      have := hp a (List.mem_cons_self a as)
      linarith
    · exact ih a hs.2 (fun x hx => hs.1 x hx) y h

theorem dtRaw_nonneg (t : List ℝ) : ∀ y ∈ dtRaw t, 0 ≤ y := by
  unfold dtRaw
  apply diffsFrom_nonneg
  · exact List.sorted_insertionSort _ t
  · intro x hx
    exact listMin_le_mem x ((List.perm_insertionSort _ t).mem_iff.mp hx)

theorem mean_nonneg {l : List ℝ} (h : ∀ x ∈ l, 0 ≤ x) : 0 ≤ mean l :=
  div_nonneg (List.sum_nonneg h) (Nat.cast_nonneg _)

theorem mBound_nonneg (t : List ℝ) : 0 ≤ mBound t :=
  le_trans (mean_nonneg (dtRaw_nonneg t)) (le_max_left _ _)

theorem dtRaw_example : dtRaw [0, 1, 2, 3] = [0, 1, 1, 1] := by
  norm_num [dtRaw, listMin, diffsFrom, List.insertionSort, List.orderedInsert]

theorem mBound_example : mBound [0, 1, 2, 3] = 3 / 4 := by
  rw [mBound, dtRaw_example]
  norm_num [mean, listMax]

/-- C6: with clipping enabled every entry of `compute_dt t` is at most
`m + 3 * sqrt m` with `m = max(mean(gaps), max(t)/len(t))`; for
`t = [0,1,2,3]` the unclipped gaps are `[0,1,1,1]` and the bound is
about 3.348 (between 3.347 and 3.349). -/
theorem compute_dt_clip_bound :
    (∀ t : List ℝ, ∀ x ∈ compute_dt t true, x ≤ mBound t + 3 * Real.sqrt (mBound t)) ∧
    dtRaw [0, 1, 2, 3] = [0, 1, 1, 1] ∧
    mBound [0, 1, 2, 3] = 3 / 4 ∧
    3347/1000 < mBound [0, 1, 2, 3] + 3 * Real.sqrt (mBound [0, 1, 2, 3]) ∧
    mBound [0, 1, 2, 3] + 3 * Real.sqrt (mBound [0, 1, 2, 3]) < 3349/1000 := by
  have hs1 : (866/1000 : ℝ) < Real.sqrt (3/4) := by
    rw [show (866/1000 : ℝ) = Real.sqrt ((866/1000)^2) by
      rw [Real.sqrt_sq (by norm_num)]]
    exact Real.sqrt_lt_sqrt (by positivity) (by norm_num)
  have hs2 : Real.sqrt (3/4) < 8661/10000 := by
    rw [show (8661/10000 : ℝ) = Real.sqrt ((8661/10000)^2) by
      rw [Real.sqrt_sq (by norm_num)]]
    exact Real.sqrt_lt_sqrt (by norm_num) (by norm_num)
  refine ⟨?_, dtRaw_example, mBound_example, ?_, ?_⟩
  · intro t x hx
    have hm : max (mBound t) 0 = mBound t := max_eq_left (mBound_nonneg t)
    simp only [compute_dt, if_pos rfl] at hx
    rcases List.mem_map.mp hx with ⟨v, hv, rfl⟩
    rw [hm]
    exact min_le_right _ _
  · rw [mBound_example]
    linarith
  · rw [mBound_example]
    linarith

/-- Witness for `compute_dt_clip_bound` applying its universal part to
the image of the first gap of `t = [0,1,2,3]` under the clipping map. -/
theorem compute_dt_clip_bound_witness :
    min (max (0:ℝ) 0)
        (max (mBound [0, 1, 2, 3]) 0 + 3 * Real.sqrt (max (mBound [0, 1, 2, 3]) 0)) ≤
      mBound [0, 1, 2, 3] + 3 * Real.sqrt (mBound [0, 1, 2, 3]) := by
  apply compute_dt_clip_bound.1 [0, 1, 2, 3]
  simp only [compute_dt, if_pos rfl]
  rw [dtRaw_example]
  exact List.mem_map_of_mem _ (by simp)

/-- First-occurrence argmin of a candidate list, the behaviour of
`np.argmin` (ties go to the lowest index). -/
def argmin : List ℝ → ℕ
  | [] => 0
  | [_] => 0
  | x :: y :: ys => if x ≤ listMin (y :: ys) then 0 else argmin (y :: ys) + 1

/-- Boolean-mask read `xs[mask]` of numpy fancy indexing. -/
def gather (mask : List Bool) (xs : List ℝ) : List ℝ :=
  ((mask.zip xs).filter (fun p => p.1)).map (fun p => p.2)

/-- Boolean-mask write `xs[mask] = repl` of numpy fancy assignment:
masked positions take successive replacement values. -/
def scatter : List Bool → List ℝ → List ℝ → List ℝ
  | true :: ms, _ :: xs, r :: rs => r :: scatter ms xs rs
  | true :: ms, x :: xs, [] => x :: scatter ms xs []
  | false :: ms, x :: xs, rs => x :: scatter ms xs rs
  | _, xs, _ => xs

/-- `adjust_increments`, source lines 108–122: sorted gaps above the
Poisson bound `ub = m + 3 * sqrt m` are subtracted from every entry
whose ORIGINAL value is at or above the gap position (the loop at lines
118–120 tests `tau >= ti` against the unmodified `tau`, accumulating
into `tau_new`, which the fold state models as (original, current)
pairs). -/
def adjust_increments (tau : List ℝ) : List ℝ :=
  let tau_ord := List.insertionSort (· ≤ ·) tau
  let dtau := diffsFrom 0 tau_ord
  let m_dtau := max (max (mean dtau) (listMax tau / tau.length)) 0
  let ub := m_dtau + 3 * Real.sqrt m_dtau
  ((tau_ord.zip dtau).foldl
    (fun acc td =>
      if ub < td.2 then
        acc.map (fun p => if td.1 ≤ p.1 then (p.1, p.2 - td.2) else p)
      else acc)
    (tau.map (fun x => (x, x)))).map Prod.snd

/-- Argument record of the modelled `compute_divergence` call (source
lines 173–298) in the case all of `t_`, `u0_`, `s0_`, `tau`, `tau_`
are supplied by the caller (so the defaulting block at lines 184–187 is
skipped), with `var_scale=False` (`varu = vars = 1`, line 223),
`connectivities=None` and `normalized=False` — none of which affect the
modes modelled below. -/
structure DivArgs where
  u : List ℝ
  s : List ℝ
  alpha : ℝ
  beta : ℝ
  gamma : ℝ
  scaling : ℝ
  t_ : ℝ
  u0_ : ℝ
  s0_ : ℝ
  tau : List ℝ
  tau_ : List ℝ
  std_u : ℝ
  std_s : ℝ
  fit_steady_states : Bool
  constraint_time_increments : Bool

def nCells (a : DivArgs) : ℕ := a.u.length

/-- Source line 189: `std_u /= scaling`. -/
def stdU (a : DivArgs) : ℝ := a.std_u / a.scaling

/-- Squared standardized distance of cell `j` to a modeled point
`(mu, ms)`: `((u - mu)/std_u)**2 + ((s - ms)/std_s)**2`, source lines
196–197 / 209–213. -/
def cellSqDist (a : DivArgs) (j : ℕ) (mu ms : ℝ) : ℝ :=
  ((a.u.getD j 0 - mu) / stdU a) ^ 2 + ((a.s.getD j 0 - ms) / a.std_s) ^ 2

/-- Pre-adjustment induction-curve distance of cell `j`, source lines
193–198, from the caller-supplied `tau` (`mRNA(tau, 0, 0, ...)`). -/
def distOn0 (a : DivArgs) (j : ℕ) : ℝ :=
  cellSqDist a j (unspliced (a.tau.getD j 0) 0 a.alpha a.beta)
    (spliced (a.tau.getD j 0) 0 0 a.alpha a.beta a.gamma)

/-- Pre-adjustment repression-curve distance of cell `j`, source lines
193–198, from the caller-supplied `tau_`
(`mRNA(tau_, u0_, s0_, 0, ...)`). -/
def distOff0 (a : DivArgs) (j : ℕ) : ℝ :=
  cellSqDist a j (unspliced (a.tau_.getD j 0) a.u0_ 0 a.beta)
    (spliced (a.tau_.getD j 0) a.s0_ a.u0_ 0 a.beta a.gamma)

/-- The `on = (o == 1)` mask of source lines 199–201: the two-state
argmin is 1 exactly when the induction distance is strictly smaller. -/
def onMask (a : DivArgs) : List Bool :=
  (List.range a.u.length).map (fun j => if distOn0 a j < distOff0 a j then true else false)

def offMask (a : DivArgs) : List Bool := (onMask a).map (fun b => !b)

/-- Value held by the caller's `tau` array after the in-place fancy
assignment `tau[on] = adjust_increments(tau[on])` of source line 202
(a no-op when `constraint_time_increments` is off or no cell is on). -/
def tauAdj (a : DivArgs) : List ℝ :=
  if a.constraint_time_increments then
    if (onMask a).any id then
      scatter (onMask a) a.tau (adjust_increments (gather (onMask a) a.tau))
    else a.tau
  else a.tau

/-- Value held by the caller's `tau_` array after source line 203. -/
def tauAdj_ (a : DivArgs) : List ℝ :=
  if a.constraint_time_increments then
    if (offMask a).any id then
      scatter (offMask a) a.tau_ (adjust_increments (gather (offMask a) a.tau_))
    else a.tau_
  else a.tau_

/-- Modeled induction-curve unspliced value of cell `j`, source line
206 (`ut, st = mRNA(tau, 0, 0, alpha, beta, gamma)`). -/
def utAt (a : DivArgs) (j : ℕ) : ℝ := unspliced ((tauAdj a).getD j 0) 0 a.alpha a.beta

def stAt (a : DivArgs) (j : ℕ) : ℝ := spliced ((tauAdj a).getD j 0) 0 0 a.alpha a.beta a.gamma

/-- Modeled repression-curve unspliced value of cell `j`, source line
207 (`ut_, st_ = mRNA(tau_, u0_, s0_, 0, beta, gamma)`). -/
def ut_At (a : DivArgs) (j : ℕ) : ℝ := unspliced ((tauAdj_ a).getD j 0) a.u0_ 0 a.beta

def st_At (a : DivArgs) (j : ℕ) : ℝ :=
  spliced ((tauAdj_ a).getD j 0) a.s0_ a.u0_ 0 a.beta a.gamma

/-- `distx` of source lines 209–212 at cell `j`. -/
def distxAt (a : DivArgs) (j : ℕ) : ℝ := cellSqDist a j (utAt a j) (stAt a j)

/-- `distx_` of source lines 209–213 at cell `j`. -/
def distx_At (a : DivArgs) (j : ℕ) : ℝ := cellSqDist a j (ut_At a j) (st_At a j)

/-- `distx_steady` of source line 226 at cell `j`: distance to the
induction steady state `(alpha/beta, alpha/gamma)`. -/
def distx_steadyAt (a : DivArgs) (j : ℕ) : ℝ :=
  cellSqDist a j (a.alpha / a.beta) (a.alpha / a.gamma)

/-- `distx_steady_` of source line 227 at cell `j`: distance to the
repression steady state `(0, 0)`. -/
def distx_steady_At (a : DivArgs) (j : ℕ) : ℝ := cellSqDist a j 0 0

/-- Candidate-state distances of cell `j`, source lines 225–230:
`[distx_, distx, distx_steady_, distx_steady]` when steady states are
fitted, else `[distx_, distx]`. -/
def cellDists (a : DivArgs) (j : ℕ) : List ℝ :=
  if a.fit_steady_states then
    [distx_At a j, distxAt a j, distx_steady_At a j, distx_steadyAt a j]
  else [distx_At a j, distxAt a j]

/-- Per-cell `o = np.argmin(res, axis=0)`, source lines 264, 274, 282. -/
def oAt (a : DivArgs) (j : ℕ) : ℕ := argmin (cellDists a j)

/-- Mode `hard_state`, source lines 273–274. -/
def hard_state (a : DivArgs) : List ℕ := (List.range a.u.length).map (oAt a)

/-- Mode `hard_eval`, source lines 263–266.  After the per-cell argmin,
`o_, o = o[0], o[1]` reads the argmin values of CELLS 0 and 1 and uses
them as scalar weights `ut * o + ut_ * o_` broadcast over all cells. -/
def hard_eval (a : DivArgs) : ℝ × ℝ × List ℝ × List ℝ :=
  ((((hard_state a).getD 0 0 : ℕ) : ℝ), (((hard_state a).getD 1 0 : ℕ) : ℝ),
    (List.range a.u.length).map
      (fun j => utAt a j * (((hard_state a).getD 1 0 : ℕ) : ℝ) +
        ut_At a j * (((hard_state a).getD 0 0 : ℕ) : ℝ)),
    (List.range a.u.length).map
      (fun j => stAt a j * (((hard_state a).getD 1 0 : ℕ) : ℝ) +
        st_At a j * (((hard_state a).getD 0 0 : ℕ) : ℝ)))

/-- Value held by the caller's `tau` array after the in-place
`tau *= (o == 1)` of source line 290 (mode `assign_timepoints`). -/
def tauMasked (a : DivArgs) : List ℝ :=
  (List.range a.u.length).map
    (fun j => (tauAdj a).getD j 0 * (if oAt a j = 1 then 1 else 0))

/-- Value held by the caller's `tau_` array after the in-place
`tau_ *= (o == 0)` of source line 289 (mode `assign_timepoints`). -/
def tauMasked_ (a : DivArgs) : List ℝ :=
  (List.range a.u.length).map
    (fun j => (tauAdj_ a).getD j 0 * (if oAt a j = 0 then 1 else 0))

/-- The collapse of source lines 292–293: `o[o==2] = 1; o[o==3] = 0`. -/
def collapse (o : ℕ) : ℕ := if o = 2 then 1 else if o = 3 then 0 else o

def o2At (a : DivArgs) (j : ℕ) : ℕ := collapse (oAt a j)

/-- Absolute latent time of cell `j`, source line 295:
`t = tau * (o == 1) + (tau_ + t_) * (o == 0)` with the already-masked
`tau`, `tau_` and the collapsed `o`. -/
def tAt (a : DivArgs) (j : ℕ) : ℝ :=
  (tauMasked a).getD j 0 * (if o2At a j = 1 then 1 else 0) +
    ((tauMasked_ a).getD j 0 + a.t_) * (if o2At a j = 0 then 1 else 0)

/-- Mode `assign_timepoints`, source lines 281–296, returning
`[t, tau, o]`; the wrapper `assign_timepoints(**kwargs)` of source
lines 301–302 forwards to this mode. -/
def assign_timepoints (a : DivArgs) : List ℝ × List ℝ × List ℕ :=
  ((List.range a.u.length).map (tAt a), tauMasked a,
    (List.range a.u.length).map (o2At a))

theorem argmin_pair_left {p q : ℝ} (h : p ≤ q) : argmin [p, q] = 0 := by
  simp only [argmin, listMin]
  rw [if_pos h]

theorem argmin_pair_right {p q : ℝ} (h : q < p) : argmin [p, q] = 1 := by
  simp only [argmin, listMin]
  rw [if_neg (not_le.mpr h)]

theorem argmin_state2 {p q z : ℝ} (hp : 0 < p) (hq : 0 < q) (hz : 0 ≤ z) :
    argmin [p, q, 0, z] = 2 := by
  have h1 : ¬ p ≤ listMin [q, 0, z] := by
    simp only [listMin]
    intro hle
    have h2 : min q (min 0 z) ≤ 0 := le_trans (min_le_right _ _) (min_le_left _ _)
    linarith
  have h2 : ¬ q ≤ listMin [(0:ℝ), z] := by
    simp only [listMin]
    intro hle
    have : min (0:ℝ) z ≤ 0 := min_le_left _ _
    linarith
  have h3 : (0:ℝ) ≤ listMin [z] := by
    simp only [listMin]
    exact hz
  simp only [argmin]
  rw [if_neg h1, if_neg h2, if_pos h3]

/-- Concrete population for the C2 counterexample: one cell at the
origin, `alpha = beta = gamma = 1`, `tau = tau_ = [1]`,
`u0_ = s0_ = t_ = 1`, steady states fitted, no increment constraint. -/
def exC2 : DivArgs := ⟨[0], [0], 1, 1, 1, 1, 1, 1, 1, [1], [1], 1, 1, true, false⟩

/-- C2 (counterexample): for the cell of `exC2` the four-state argmin
is 2 (the repression steady state), yet `assign_timepoints` returns
branch 1 (the induction branch), not the repression branch 0 that the
claim's collapse direction requires. -/
theorem assign_timepoints_collapse_counterexample :
    oAt exC2 0 = 2 ∧ (assign_timepoints exC2).2.2 = [1] := by
  have hta : tauAdj exC2 = [1] := by simp [tauAdj, exC2]
  have hta_ : tauAdj_ exC2 = [1] := by simp [tauAdj_, exC2]
  have hE0 : (0:ℝ) < Real.exp (-1) := Real.exp_pos _
  have hE1 : Real.exp (-1 : ℝ) < 1 := by
    rw [Real.exp_lt_one_iff]
    norm_num
  have e1 : distx_At exC2 0 = 2 * Real.exp (-1) ^ 2 := by
    rw [distx_At, ut_At, st_At, hta_]
    simp [cellSqDist, stdU, unspliced, spliced, exC2]
    ring
  have e2 : distxAt exC2 0 = 2 * (1 - Real.exp (-1)) ^ 2 := by
    rw [distxAt, utAt, stAt, hta]
    simp [cellSqDist, stdU, unspliced, spliced, exC2]
    ring
  have e3 : distx_steady_At exC2 0 = 0 := by
    simp [distx_steady_At, cellSqDist, stdU, exC2]
  have e4 : distx_steadyAt exC2 0 = 2 := by
    simp [distx_steadyAt, cellSqDist, stdU, exC2]
    norm_num
  have ho : oAt exC2 0 = 2 := by
    have hcd : cellDists exC2 0 =
        [2 * Real.exp (-1) ^ 2, 2 * (1 - Real.exp (-1)) ^ 2, 0, 2] := by
      rw [cellDists, if_pos (show exC2.fit_steady_states = true from rfl), e1, e2, e3, e4]
    rw [oAt, hcd]
    exact argmin_state2 (by positivity) (by nlinarith) (by norm_num)
  refine ⟨ho, ?_⟩
  show (List.range exC2.u.length).map (o2At exC2) = [1]
  rw [show exC2.u.length = 1 from rfl]
  simp [List.range_succ, o2At, ho, collapse]

/-- C2 (amended): in mode `assign_timepoints` each cell's returned
branch is the four-candidate argmin collapsed by `2 ↦ 1`, `3 ↦ 0`
(repression steady state to the induction branch, induction steady
state to the repression branch), and the absolute time satisfies
`t = tau` for branch-1 cells and `t = tau_ + t_` for branch-0 cells,
in terms of the returned (masked) `tau` and the final `tau_` values. -/
theorem assign_timepoints_branch_time (a : DivArgs) (j : ℕ) (hj : j < a.u.length) :
    (assign_timepoints a).2.2.getD j 0 = collapse (oAt a j) ∧
    ((assign_timepoints a).2.2.getD j 0 = 1 →
      (assign_timepoints a).1.getD j 0 = (assign_timepoints a).2.1.getD j 0) ∧
    ((assign_timepoints a).2.2.getD j 0 = 0 →
      (assign_timepoints a).1.getD j 0 = (tauMasked_ a).getD j 0 + a.t_) := by
  have hb : (assign_timepoints a).2.2.getD j 0 = o2At a j := getD_map_range _ hj _
  have ht : (assign_timepoints a).1.getD j 0 = tAt a j := getD_map_range _ hj _
  refine ⟨hb, ?_, ?_⟩
  · intro h1
    rw [hb] at h1
    rw [ht, tAt, h1]
    norm_num
    rfl
  · intro h0
    rw [hb] at h0
    rw [ht, tAt, h0]
    norm_num

/-- Concrete population for the C2 witness. -/
def exW : DivArgs := ⟨[0], [0], 1, 1, 1, 1, 1, 1, 1, [0], [0], 1, 1, false, false⟩

/-- Witness for `assign_timepoints_branch_time` at the one-cell
population `exW`, cell 0. -/
theorem assign_timepoints_branch_time_witness :
    (assign_timepoints exW).2.2.getD 0 0 = collapse (oAt exW 0) ∧
    ((assign_timepoints exW).2.2.getD 0 0 = 1 →
      (assign_timepoints exW).1.getD 0 0 = (assign_timepoints exW).2.1.getD 0 0) ∧
    ((assign_timepoints exW).2.2.getD 0 0 = 0 →
      (assign_timepoints exW).1.getD 0 0 = (tauMasked_ exW).getD 0 0 + exW.t_) :=
  assign_timepoints_branch_time exW 0 (by simp [exW])

/-- C8: the modelled `assign_timepoints` is a deterministic function of
its argument values: calls with equal arguments return equal
`(t, tau, branch)` outputs, and the final values written back into the
caller's `tau`, `tau_` arrays are equally determined — the embedding
passes all state explicitly, and the source computation reads no state
other than its arguments. -/
theorem assign_timepoints_deterministic (a b : DivArgs) (h : a = b) :
    assign_timepoints a = assign_timepoints b ∧
    tauMasked a = tauMasked b ∧ tauMasked_ a = tauMasked_ b := by
  rw [h]
  exact ⟨rfl, rfl, rfl⟩

/-- Witness for `assign_timepoints_deterministic` on a concrete
population. -/
theorem assign_timepoints_deterministic_witness :
    assign_timepoints ⟨[0], [1], 1, 1, 1, 1, 1, 1, 1, [0], [0], 1, 1, true, true⟩ =
      assign_timepoints ⟨[0], [1], 1, 1, 1, 1, 1, 1, 1, [0], [0], 1, 1, true, true⟩ ∧
    tauMasked ⟨[0], [1], 1, 1, 1, 1, 1, 1, 1, [0], [0], 1, 1, true, true⟩ =
      tauMasked ⟨[0], [1], 1, 1, 1, 1, 1, 1, 1, [0], [0], 1, 1, true, true⟩ ∧
    tauMasked_ ⟨[0], [1], 1, 1, 1, 1, 1, 1, 1, [0], [0], 1, 1, true, true⟩ =
      tauMasked_ ⟨[0], [1], 1, 1, 1, 1, 1, 1, 1, [0], [0], 1, 1, true, true⟩ :=
  assign_timepoints_deterministic _ _ rfl

theorem argmin_tie {d y z : ℝ} :
    argmin [d, d, y, z] ≠ 1 ∧ (d ≤ y → d ≤ z → argmin [d, d, y, z] = 0) := by
  constructor
  · by_cases hc : d ≤ listMin [d, y, z]
    · simp only [argmin]
      rw [if_pos hc]
      norm_num
    · have hc2 : ¬ d ≤ listMin [y, z] := by
        intro hle
        apply hc
        simp only [listMin] at hle ⊢
        exact le_min (le_refl d) hle
      simp only [argmin]
      rw [if_neg hc, if_neg hc2]
      omega
  · intro hy hz
    have hc : d ≤ listMin [d, y, z] := by
      simp only [listMin]
      exact le_min (le_refl d) (le_min hy hz)
    simp only [argmin]
    rw [if_pos hc]

/-- C7: when a cell's repression-curve distance `distx_` and
induction-curve distance `distx` are exactly equal, the per-cell argmin
shared by modes `hard_eval` and `hard_state` never selects the
induction state (index 1): with the two curve states alone it selects
the repression state 0, and with steady states fitted it selects 0
whenever the tied curve distance also does not exceed the two
steady-state distances. -/
theorem tie_break_lower_index (a : DivArgs) (j : ℕ) (hj : j < a.u.length)
    (h : distx_At a j = distxAt a j) :
    oAt a j ≠ 1 ∧ (hard_state a).getD j 0 ≠ 1 ∧
    (a.fit_steady_states = false → oAt a j = 0) ∧
    (distx_At a j ≤ distx_steady_At a j → distx_At a j ≤ distx_steadyAt a j →
      oAt a j = 0) := by
  have hhs : (hard_state a).getD j 0 = oAt a j := getD_map_range _ hj _
  rcases Bool.eq_false_or_eq_true a.fit_steady_states with hf | hf
  · -- steady states fitted: four candidate states
    have hcd : cellDists a j =
        [distx_At a j, distx_At a j, distx_steady_At a j, distx_steadyAt a j] := by
      rw [cellDists, if_pos hf, ← h]
    have h1 : oAt a j ≠ 1 := by
      rw [oAt, hcd]
      exact argmin_tie.1
    refine ⟨h1, by rw [hhs]; exact h1, ?_, ?_⟩
    · intro hff
      rw [hf] at hff
      cases hff
    · intro hy hz
      rw [oAt, hcd]
      exact argmin_tie.2 hy hz
  · -- curve states only
    have hcd : cellDists a j = [distx_At a j, distx_At a j] := by
      rw [cellDists, if_neg (by rw [hf]; simp), ← h]
    have h0 : oAt a j = 0 := by
      rw [oAt, hcd]
      exact argmin_pair_left (le_refl _)
    refine ⟨by rw [h0]; norm_num, by rw [hhs, h0]; norm_num, fun _ => h0, fun _ _ => h0⟩

/-- Concrete population for the C7 witness: `u = s = [1]`, zero local
times, `u0_ = 2`, `s0_ = 0`, so both curve distances equal 2. -/
def exC7 : DivArgs := ⟨[1], [1], 1, 1, 1, 1, 1, 2, 0, [0], [0], 1, 1, false, false⟩

/-- Witness for `tie_break_lower_index` at `exC7`, cell 0, where both
curve distances evaluate to 2. -/
theorem tie_break_lower_index_witness :
    oAt exC7 0 ≠ 1 ∧ (hard_state exC7).getD 0 0 ≠ 1 ∧
    (exC7.fit_steady_states = false → oAt exC7 0 = 0) ∧
    (distx_At exC7 0 ≤ distx_steady_At exC7 0 →
      distx_At exC7 0 ≤ distx_steadyAt exC7 0 → oAt exC7 0 = 0) :=
  tie_break_lower_index exC7 0 (by simp [exC7]) (by
    have hta : tauAdj exC7 = [0] := by simp [tauAdj, exC7]
    have hta_ : tauAdj_ exC7 = [0] := by simp [tauAdj_, exC7]
    rw [distx_At, distxAt, ut_At, st_At, utAt, stAt, hta, hta_]
    simp [cellSqDist, stdU, unspliced, spliced, exC7, inv]
    norm_num)

theorem getD_triple_zero (j : ℕ) : (([0, 0, 0] : List ℝ)).getD j 0 = 0 := by
  rcases j with _ | _ | _ | j <;> rfl

/-- Concrete population for the C3 bug demonstration: three cells with
`u = [0, 2, 1/2]`, `s = 0`, zero local times, repression start
`(u0_, s0_) = (2, 0)`, curve states only. -/
def exC3 : DivArgs :=
  ⟨[0, 2, 1/2], [0, 0, 0], 1, 1, 1, 1, 1, 2, 0, [0, 0, 0], [0, 0, 0], 1, 1, false, false⟩

/-- C3 (code bug): at `exC3` the per-cell argmin is `[1, 0, 1]`, but
`hard_eval` returns the scalar pair `(1, 0)` — the argmin values of
cells 0 and 1 only — and blends the modeled curves with those two
scalars for every cell: it reports modeled `u = 2 = ut_At` for cell 2
although cell 2's own selected state is 1 (induction) with modeled
`u = utAt = 0`. -/
theorem hard_eval_broadcast_bug :
    hard_state exC3 = [1, 0, 1] ∧
    hard_eval exC3 = (1, 0, [2, 2, 2], [0, 0, 0]) ∧
    utAt exC3 2 = 0 := by
  have hta : tauAdj exC3 = [0, 0, 0] := by simp [tauAdj, exC3]
  have hta_ : tauAdj_ exC3 = [0, 0, 0] := by simp [tauAdj_, exC3]
  have hut : ∀ j, utAt exC3 j = 0 := by
    intro j
    rw [utAt, hta, getD_triple_zero]
    simp [unspliced, exC3]
  have hst : ∀ j, stAt exC3 j = 0 := by
    intro j
    rw [stAt, hta, getD_triple_zero]
    simp [spliced, exC3]
  have hut_ : ∀ j, ut_At exC3 j = 2 := by
    intro j
    rw [ut_At, hta_, getD_triple_zero]
    simp [unspliced, exC3]
  have hst_ : ∀ j, st_At exC3 j = 0 := by
    intro j
    rw [st_At, hta_, getD_triple_zero]
    simp [spliced, exC3]
  have hnf : ¬ (exC3.fit_steady_states = true) := by simp [exC3]
  have ho0 : oAt exC3 0 = 1 := by
    rw [oAt, cellDists, if_neg hnf]
    rw [show distx_At exC3 0 = 4 from by
      rw [distx_At, hut_, hst_]; simp [cellSqDist, stdU, exC3]; norm_num]
    rw [show distxAt exC3 0 = 0 from by
      rw [distxAt, hut, hst]; simp [cellSqDist, stdU, exC3]]
    exact argmin_pair_right (by norm_num)
  have ho1 : oAt exC3 1 = 0 := by
    rw [oAt, cellDists, if_neg hnf]
    rw [show distx_At exC3 1 = 0 from by
      rw [distx_At, hut_, hst_]; simp [cellSqDist, stdU, exC3]]
    rw [show distxAt exC3 1 = 4 from by
      rw [distxAt, hut, hst]; simp [cellSqDist, stdU, exC3]; norm_num]
    exact argmin_pair_left (by norm_num)
  have ho2 : oAt exC3 2 = 1 := by
    rw [oAt, cellDists, if_neg hnf]
    rw [show distx_At exC3 2 = 9/4 from by
      rw [distx_At, hut_, hst_]; simp [cellSqDist, stdU, exC3]; norm_num]
    rw [show distxAt exC3 2 = 1/4 from by
      rw [distxAt, hut, hst]; simp [cellSqDist, stdU, exC3]; norm_num]
    exact argmin_pair_right (by norm_num)
  have hhs : hard_state exC3 = [1, 0, 1] := by
    rw [hard_state, show exC3.u.length = 3 from rfl]
    simp [List.range_succ, ho0, ho1, ho2]
  refine ⟨hhs, ?_, hut 2⟩
  rw [hard_eval, hhs, show exC3.u.length = 3 from rfl]
  simp [List.range_succ, hut, hut_, hst, hst_]

theorem sqrt_three_lt_two : Real.sqrt 3 < 2 := by
  rw [show (2:ℝ) = Real.sqrt 4 by
    rw [show (4:ℝ) = 2^2 by norm_num, Real.sqrt_sq (by norm_num)]]
  exact Real.sqrt_lt_sqrt (by norm_num) (by norm_num)

/-- On `[0, 0, 9]` the sorted gap 9 exceeds the Poisson bound
`3 + 3*sqrt 3 < 9`, so every entry at or above 9 is shifted down by 9. -/
theorem adjust_increments_example : adjust_increments [0, 0, 9] = [0, 0, 0] := by
  have hub9 : 3 + 3 * Real.sqrt 3 < 9 := by nlinarith [sqrt_three_lt_two]
  have hub0 : ¬ (3 + 3 * Real.sqrt 3 < 0) := by
    push_neg
    positivity
  simp only [adjust_increments]
  rw [show List.insertionSort (· ≤ ·) ([0, 0, 9] : List ℝ) = [0, 0, 9] from by
    norm_num [List.insertionSort, List.orderedInsert]]
  norm_num [diffsFrom, mean, listMax]
  simp [List.foldl, hub9, hub0]

/-- Concrete population for C10: three cells at the origin with
`alpha = 0`, caller-supplied `tau = [0, 0, 9]` and `tau_ = [5, 5, 5]`,
repression start `(100, 100)`, increment constraint on. -/
def exC10 : DivArgs :=
  ⟨[0, 0, 0], [0, 0, 0], 0, 1, 1, 1, 1, 100, 100, [0, 0, 9], [5, 5, 5], 1, 1, false, true⟩

theorem getD_fives (j : ℕ) (hj : j < 3) : (([5, 5, 5] : List ℝ)).getD j 0 = 5 := by
  interval_cases j <;> rfl

theorem getElemq_triple_zero (j : ℕ) : ((([0, 0, 0] : List ℝ))[j]?).getD 0 = 0 := by
  rcases j with _ | _ | _ | j <;> rfl

/-- C10: after a `compute_divergence` call in mode `assign_timepoints`
on `exC10`, the caller's `tau` array holds `[0,0,0]` (the increment
adjustment of line 202 rewrote the 9, and line 290 masked the rest) and
the caller's `tau_` array holds `[0,0,0]` (line 289 multiplied the
caller's `[5,5,5]` by the branch mask) — neither array retains its
original values. -/
theorem tau_arrays_overwritten :
    tauAdj exC10 = [0, 0, 0] ∧ tauAdj exC10 ≠ exC10.tau ∧
    tauMasked exC10 = [0, 0, 0] ∧
    tauMasked_ exC10 = [0, 0, 0] ∧ tauMasked_ exC10 ≠ exC10.tau_ := by
  have hE : (0:ℝ) < Real.exp (-5) := Real.exp_pos _
  have hOn : ∀ j, distOn0 exC10 j = 0 := by
    intro j
    simp [distOn0, cellSqDist, stdU, unspliced, spliced, exC10, getElemq_triple_zero]
  have hOff : ∀ j, j < 3 → distOff0 exC10 j = 2 * (100 * Real.exp (-5 : ℝ)) ^ 2 := by
    intro j hj
    rw [distOff0]
    simp only [exC10, getD_fives j hj, getD_triple_zero]
    simp [cellSqDist, stdU, unspliced, spliced, exC10, getElemq_triple_zero]
    ring
  have hcond : ∀ j, j < 3 → distOn0 exC10 j < distOff0 exC10 j := by
    intro j hj
    rw [hOn, hOff j hj]
    positivity
  have hmask : onMask exC10 = [true, true, true] := by
    rw [onMask, show exC10.u.length = 3 from rfl]
    simp only [List.range_succ, List.range_zero, List.map_append, List.map_cons,
      List.map_nil, List.nil_append, List.cons_append]
    rw [if_pos (hcond 0 (by norm_num)), if_pos (hcond 1 (by norm_num)),
      if_pos (hcond 2 (by norm_num))]
  have hadj : tauAdj exC10 = [0, 0, 0] := by
    rw [tauAdj, if_pos (show exC10.constraint_time_increments = true from rfl), hmask]
    rw [if_pos (show ([true, true, true] : List Bool).any id = true from rfl)]
    rw [show gather [true, true, true] exC10.tau = [0, 0, 9] from rfl]
    rw [adjust_increments_example]
    rfl
  have hoffm : offMask exC10 = [false, false, false] := by
    rw [offMask, hmask]
    rfl
  have hadj_ : tauAdj_ exC10 = [5, 5, 5] := by
    rw [tauAdj_, if_pos (show exC10.constraint_time_increments = true from rfl), hoffm]
    rw [if_neg (show ¬ (([false, false, false] : List Bool).any id = true) from by simp)]
    rfl
  have hone : ∀ j, j < 3 → oAt exC10 j = 1 := by
    intro j hj
    rw [oAt, cellDists, if_neg (show ¬ (exC10.fit_steady_states = true) from by simp [exC10])]
    rw [show distxAt exC10 j = 0 from by
      rw [distxAt, utAt, stAt]
      simp [cellSqDist, stdU, unspliced, spliced, exC10, getElemq_triple_zero]]
    rw [show distx_At exC10 j = 2 * (100 * Real.exp (-5 : ℝ)) ^ 2 from by
      rw [distx_At, ut_At, st_At, hadj_, getD_fives j hj]
      simp [cellSqDist, stdU, unspliced, spliced, exC10, getElemq_triple_zero]
      ring]
    exact argmin_pair_right (by positivity)
  have hmasked : tauMasked exC10 = [0, 0, 0] := by
    rw [tauMasked, show exC10.u.length = 3 from rfl, hadj]
    simp [List.range_succ, getD_triple_zero]
  have hmasked_ : tauMasked_ exC10 = [0, 0, 0] := by
    rw [tauMasked_, show exC10.u.length = 3 from rfl, hadj_]
    simp [List.range_succ, hone 0 (by norm_num), hone 1 (by norm_num), hone 2 (by norm_num)]
  refine ⟨hadj, ?_, hmasked, hmasked_, ?_⟩
  · rw [hadj, show exC10.tau = [0, 0, 9] from rfl]
    simp
  · rw [hmasked_, show exC10.tau_ = [5, 5, 5] from rfl]
    simp

end

end Scvelo
